import Mathlib

/-!
# Verification of the Polkadex parachain bridge pallets

Shallow embedding of the two pallets `xcm-helper`
(`src/pallets/xcm-helper/src/lib.rs`) and `thea-council`
(`src/pallets/thea-council/src/lib.rs`) of the Polkadex parachain
repository, together with proofs about the behaviours described in the
specification.

Modelling conventions:
* Machine integers are `Nat` with explicit saturation / truncation
  (`% 256` for `u8` casts, `min _ u32max` for `u32` saturating addition)
  at exactly the places the Rust source saturates or casts.
* Substrate storage is a record of map-like functions; `StorageMap` with
  `ValueQuery` becomes a total function returning the default value.
* Dispatchables return `Except`: Substrate wraps every dispatchable in a
  transactional storage layer, so a `Dispatch` error rolls the whole
  extrinsic back.  Consequently an `Except.error` result carries no state;
  the pre-state is what persists.
* Cryptography (`keccak_256`, `ecdsa_verify_prehashed`) and the SCALE
  encoding of the signing payload are opaque external functions, bundled
  in a `Crypto` record that all theorems quantify over.
* The external collaborators (orml `transfer_multiassets`, the
  `AssetManager` of `pallet_assets`, `Currency`) are oracles bundled in an
  `Executor` record.
* SCALE encoding of the `ParachainAsset` identifier stored in `TheaAssets`
  is embedded executably (compact `u32`, little-endian fixed-width bytes,
  enum tag bytes) for the constructors used by this repository.
-/

namespace PolkadexParachain

/-! ## SCALE codec for the `ParachainAsset` identifier -/

/-- SCALE compact encoding of a `u32` value (bytes as `Nat`s < 256). -/
def compactEncode (n : Nat) : List Nat :=
  if n < 64 then [4 * n]
  else if n < 16384 then [(4 * n + 1) % 256, (4 * n + 1) / 256]
  else if n < 1073741824 then
    [(4 * n + 2) % 256, (4 * n + 2) / 256 % 256,
     (4 * n + 2) / 65536 % 256, (4 * n + 2) / 16777216 % 256]
  else [3, n % 256, n / 256 % 256, n / 65536 % 256, n / 16777216 % 256]

/-- SCALE compact decoding of a `u32` value; returns the value and the
remaining bytes. -/
def compactDecode : List Nat → Option (Nat × List Nat)
  | [] => none
  | b :: rest =>
    if b % 4 = 0 then some (b / 4, rest)
    else if b % 4 = 1 then
      match rest with
      | b1 :: r => some ((b + 256 * b1) / 4, r)
      | [] => none
    else if b % 4 = 2 then
      match rest with
      | b1 :: b2 :: b3 :: r =>
        some ((b + 256 * b1 + 65536 * b2 + 16777216 * b3) / 4, r)
      | _ => none
    else if b = 3 then
      match rest with
      | b0 :: b1 :: b2 :: b3 :: r =>
        some (b0 + 256 * b1 + 65536 * b2 + 16777216 * b3, r)
      | _ => none
    else none

theorem compactDecode_compactEncode (n : Nat) (rest : List Nat)
    (h : n < 4294967296) :
    compactDecode (compactEncode n ++ rest) = some (n, rest) := by
  by_cases h1 : n < 64
  · have hb : 4 * n % 4 = 0 := by omega
    have hv : 4 * n / 4 = n := by omega
    simp only [compactEncode, if_pos h1, List.cons_append, List.nil_append,
      compactDecode, hb, if_pos rfl, hv]
    norm_num
  · by_cases h2 : n < 16384
    · have hb : (4 * n + 1) % 256 % 4 = 1 := by omega
      have hv : ((4 * n + 1) % 256 + 256 * ((4 * n + 1) / 256)) / 4 = n := by
        omega
      simp only [compactEncode, if_neg h1, if_pos h2, List.cons_append,
        List.nil_append, compactDecode, hb, hv]
      norm_num
    · by_cases h3 : n < 1073741824
      · have hb : (4 * n + 2) % 256 % 4 = 2 := by omega
        have hv : ((4 * n + 2) % 256 + 256 * ((4 * n + 2) / 256 % 256)
            + 65536 * ((4 * n + 2) / 65536 % 256)
            + 16777216 * ((4 * n + 2) / 16777216 % 256)) / 4 = n := by omega
        simp only [compactEncode, if_neg h1, if_neg h2, if_pos h3,
          List.cons_append, List.nil_append, compactDecode, hb, hv]
        norm_num
      · have hv : n % 256 + 256 * (n / 256 % 256) + 65536 * (n / 65536 % 256)
            + 16777216 * (n / 16777216 % 256) = n := by omega
        simp only [compactEncode, if_neg h1, if_neg h2, if_neg h3,
          List.cons_append, List.nil_append, compactDecode, hv]
        norm_num

/-- Little-endian byte list of fixed width `k` for a natural number. -/
def natToLE : Nat → Nat → List Nat
  | 0, _ => []
  | k + 1, n => n % 256 :: natToLE k (n / 256)

/-- Decode a fixed-width little-endian value, returning the remaining
bytes. -/
def decodeFixedLE : Nat → List Nat → Option (Nat × List Nat)
  | 0, bs => some (0, bs)
  | _ + 1, [] => none
  | k + 1, b :: bs =>
    match decodeFixedLE k bs with
    | some (v, r) => some (b + 256 * v, r)
    | none => none

theorem decodeFixedLE_natToLE (k : Nat) (n : Nat) (rest : List Nat)
    (h : n < 256 ^ k) :
    decodeFixedLE k (natToLE k n ++ rest) = some (n, rest) := by
  induction k generalizing n with
  | zero =>
    have : n = 0 := by simpa using h
    subst this
    simp [natToLE, decodeFixedLE]
  | succ k ih =>
    have hlt : n / 256 < 256 ^ k := by
      rw [Nat.div_lt_iff_lt_mul (by norm_num)]
      calc n < 256 ^ (k + 1) := h
        _ = 256 ^ k * 256 := by ring
    have hv : n % 256 + 256 * (n / 256) = n := by omega
    simp only [natToLE, List.cons_append, decodeFixedLE, List.append_eq,
      ih (n / 256) hlt, hv]

/-! ## XCM data model (the v1 constructors used by this repository) -/

/-- `xcm::v1::NetworkId` (the variants used here; the SCALE tag of
`Named` is 1, which this embedding does not use). -/
inductive NetworkId
  | any
  | polkadot
  | kusama
deriving DecidableEq, Repr

def encodeNetworkId : NetworkId → List Nat
  | .any => [0]
  | .polkadot => [2]
  | .kusama => [3]

def decodeNetworkId : List Nat → Option (NetworkId × List Nat)
  | 0 :: r => some (.any, r)
  | 2 :: r => some (.polkadot, r)
  | 3 :: r => some (.kusama, r)
  | _ => none

theorem decodeNetworkId_encodeNetworkId (net : NetworkId) (rest : List Nat) :
    decodeNetworkId (encodeNetworkId net ++ rest) = some (net, rest) := by
  cases net <;> rfl

/-- `xcm::v1::Junction`, restricted to the constructors used by the
repository (`Parachain` in `is_native_asset`, `AccountId32` in
`get_destination_account`).  `Parachain` carries a `u32`; the 32-byte
account id of `AccountId32` is modelled as the natural number its
little-endian bytes denote. -/
inductive Junction
  | parachain (index : Nat)
  | accountId32 (network : NetworkId) (accountId : Nat)
deriving DecidableEq, Repr

/-- SCALE tags: `Parachain` = 0, `AccountId32` = 1. -/
def encodeJunction : Junction → List Nat
  | .parachain index => 0 :: compactEncode index
  | .accountId32 network accountId =>
    1 :: (encodeNetworkId network ++ natToLE 32 accountId)

def decodeJunction : List Nat → Option (Junction × List Nat)
  | 0 :: r =>
    match compactDecode r with
    | some (index, r2) => some (.parachain index, r2)
    | none => none
  | 1 :: r =>
    match decodeNetworkId r with
    | some (network, r2) =>
      match decodeFixedLE 32 r2 with
      | some (accountId, r3) => some (.accountId32 network accountId, r3)
      | none => none
    | none => none
  | _ => none

/-- Width bounds that the Rust types enforce at the type level
(`Parachain(u32)`, 32-byte account ids). -/
def Junction.wfb : Junction → Bool
  | .parachain index => index < 4294967296
  | .accountId32 _ accountId => accountId < 256 ^ 32

theorem decodeJunction_encodeJunction (j : Junction) (rest : List Nat)
    (h : j.wfb = true) :
    decodeJunction (encodeJunction j ++ rest) = some (j, rest) := by
  cases j with
  | parachain index =>
    have hx : index < 4294967296 := by
      simpa [Junction.wfb] using h
    simp only [encodeJunction, List.cons_append, decodeJunction,
      compactDecode_compactEncode index rest hx]
  | accountId32 network accountId =>
    have hx : accountId < 256 ^ 32 := by
      simpa [Junction.wfb] using h
    simp only [encodeJunction, List.cons_append, List.append_assoc,
      decodeJunction, decodeNetworkId_encodeNetworkId,
      decodeFixedLE_natToLE 32 accountId rest hx]

/-- `xcm::v1::Junctions`, restricted to the arities used here. -/
inductive Junctions
  | here
  | x1 (j1 : Junction)
  | x2 (j1 j2 : Junction)
deriving DecidableEq, Repr

def Junctions.wfb : Junctions → Bool
  | .here => true
  | .x1 j1 => j1.wfb
  | .x2 j1 j2 => j1.wfb && j2.wfb

/-- SCALE tags: `Here` = 0, `X1` = 1, `X2` = 2. -/
def encodeJunctions : Junctions → List Nat
  | .here => [0]
  | .x1 j1 => 1 :: encodeJunction j1
  | .x2 j1 j2 => 2 :: (encodeJunction j1 ++ encodeJunction j2)

def decodeJunctions : List Nat → Option (Junctions × List Nat)
  | 0 :: r => some (.here, r)
  | 1 :: r =>
    match decodeJunction r with
    | some (j1, r2) => some (.x1 j1, r2)
    | none => none
  | 2 :: r =>
    match decodeJunction r with
    | some (j1, r2) =>
      match decodeJunction r2 with
      | some (j2, r3) => some (.x2 j1 j2, r3)
      | none => none
    | none => none
  | _ => none

theorem decodeJunctions_encodeJunctions (i : Junctions) (rest : List Nat)
    (h : i.wfb = true) :
    decodeJunctions (encodeJunctions i ++ rest) = some (i, rest) := by
  cases i with
  | here => rfl
  | x1 j1 =>
    have h1 : j1.wfb = true := by simpa [Junctions.wfb] using h
    simp only [encodeJunctions, List.cons_append, decodeJunctions,
      decodeJunction_encodeJunction j1 rest h1]
  | x2 j1 j2 =>
    have h1 : j1.wfb = true := by
      have := h
      simp [Junctions.wfb, Bool.and_eq_true] at this
      exact this.1
    have h2 : j2.wfb = true := by
      have := h
      simp [Junctions.wfb, Bool.and_eq_true] at this
      exact this.2
    simp only [encodeJunctions, List.cons_append, List.append_assoc,
      decodeJunctions, decodeJunction_encodeJunction j1 _ h1,
      decodeJunction_encodeJunction j2 rest h2]

/-- `xcm::v1::MultiLocation`: a `u8` parents count and interior
junctions. -/
structure MultiLocation where
  parents : Nat
  interior : Junctions
deriving DecidableEq, Repr

def MultiLocation.wfb (m : MultiLocation) : Bool :=
  decide (m.parents < 256) && m.interior.wfb

/-- SCALE: `parents` as one byte, then the junctions. -/
def encodeMultiLocation (m : MultiLocation) : List Nat :=
  m.parents % 256 :: encodeJunctions m.interior

def decodeMultiLocation : List Nat → Option (MultiLocation × List Nat)
  | [] => none
  | b :: r =>
    match decodeJunctions r with
    | some (i, r2) => some (⟨b, i⟩, r2)
    | none => none

theorem decodeMultiLocation_encodeMultiLocation (m : MultiLocation)
    (rest : List Nat) (h : m.wfb = true) :
    decodeMultiLocation (encodeMultiLocation m ++ rest) = some (m, rest) := by
  have hp : m.parents < 256 := by
    have := h
    simp [MultiLocation.wfb, Bool.and_eq_true] at this
    exact this.1
  have hi : m.interior.wfb = true := by
    have := h
    simp [MultiLocation.wfb, Bool.and_eq_true] at this
    exact this.2
  have hmod : m.parents % 256 = m.parents := Nat.mod_eq_of_lt hp
  simp only [encodeMultiLocation, List.cons_append, decodeMultiLocation,
    decodeJunctions_encodeJunctions m.interior rest hi, hmod]

/-- `AssetType` of the `ParachainAsset` struct of the xcm-helper pallet. -/
inductive AssetType
  | fungibleType
  | nonFungibleType
deriving DecidableEq, Repr

/-- SCALE tags: `Fungible` = 0, `NonFungible` = 1. -/
def encodeAssetType : AssetType → List Nat
  | .fungibleType => [0]
  | .nonFungibleType => [1]

def decodeAssetType : List Nat → Option (AssetType × List Nat)
  | 0 :: r => some (.fungibleType, r)
  | 1 :: r => some (.nonFungibleType, r)
  | _ => none

/-- The `ParachainAsset` struct of the xcm-helper pallet
(`src/pallets/xcm-helper/src/lib.rs:198-201`). -/
structure ParachainAsset where
  location : MultiLocation
  assetType : AssetType
deriving DecidableEq, Repr

def encodeParachainAsset (p : ParachainAsset) : List Nat :=
  encodeMultiLocation p.location ++ encodeAssetType p.assetType

def decodeParachainAsset (bs : List Nat) : Option (ParachainAsset × List Nat) :=
  match decodeMultiLocation bs with
  | some (location, r) =>
    match decodeAssetType r with
    | some (assetType, r2) => some (⟨location, assetType⟩, r2)
    | none => none
  | none => none

theorem decodeParachainAsset_encodeParachainAsset (p : ParachainAsset)
    (rest : List Nat) (h : p.location.wfb = true) :
    decodeParachainAsset (encodeParachainAsset p ++ rest) = some (p, rest) := by
  have hd : decodeAssetType (encodeAssetType p.assetType ++ rest)
      = some (p.assetType, rest) := by
    cases p.assetType <;> rfl
  simp only [encodeParachainAsset, decodeParachainAsset, List.append_assoc,
    decodeMultiLocation_encodeMultiLocation p.location _ h, hd]

/-! ## XCM asset values -/

/-- `xcm::v1::AssetId`. -/
inductive AssetId
  | concrete (location : MultiLocation)
  | abstract (bytes : List Nat)
deriving DecidableEq, Repr

/-- `xcm::v1::Fungibility` (`Fungible` carries a `u128` amount). -/
inductive Fungibility
  | fungible (amount : Nat)
  | nonFungible
deriving DecidableEq, Repr

/-- `xcm::v1::MultiAsset`.  The Rust field `fun` is called `fung` here
because `fun` is reserved in Lean. -/
structure MultiAsset where
  id : AssetId
  fung : Fungibility
deriving DecidableEq, Repr

/-- A `VersionedMultiAssets` value; this repository only ever builds and
consumes the `V1` variant, modelled as the plain list of assets. -/
abbrev MultiAssets := List MultiAsset

/-! ## xcm-helper pallet: storage, errors, externals -/

/-- The `PendingWithdrawal` struct
(`src/pallets/xcm-helper/src/lib.rs:170-174`).  The boxed
`VersionedMultiAssets` / `VersionedMultiLocation` fields are modelled by
their `V1` payloads. -/
structure PendingWithdrawal where
  asset : MultiAssets
  destination : MultiLocation
  is_blocked : Bool
deriving DecidableEq, Repr

/-- `TheaMessage` (`src/pallets/xcm-helper/src/lib.rs:140-147`); public
keys are abstract values modelled as `Nat`. -/
inductive TheaMessage
  | assetDeposited (who : MultiLocation) (what : MultiAsset)
  | theaKeySetBySudo (key : Nat)
  | theaKeyChanged (key : Nat)
deriving DecidableEq, Repr

/-- `Error<T>` of the xcm-helper pallet, plus `BadOrigin` (the
`frame_system` origin-check failure of `ensure_signed` / `ensure_root`)
and `External` (a `DispatchError` forwarded from an external pallet such
as the `AssetManager`). -/
inductive XcmErr
  | InvalidSender
  | IngressMessagesLimitReached
  | SignatureVerificationFailed
  | PublicKeyNotSet
  | IngressMessagesFull
  | NonceIsNotValid
  | IndexNotFound
  | IdentifierLengthMismatch
  | AssetIdAbstractNotHandled
  | InternalError
  | PendingWithdrawalsLimitReached
  | TokenIsAlreadyWhitelisted
  | WhitelistedTokensLimitReached
  | BadOrigin
  | External
deriving DecidableEq, Repr

/-- A dispatch origin (`frame_system::RawOrigin`). -/
inductive Origin
  | root
  | signed (who : Nat)
  | unsignedOrigin
deriving DecidableEq, Repr

/-- Opaque cryptographic externals: `sp_io::hashing::keccak_256`,
`sp_io::crypto::ecdsa_verify_prehashed`, and the SCALE encoding of the
`(payload, nonce)` signing tuple of `withdraw_asset`.  All theorems
quantify over this record; counterexamples instantiate it. -/
structure Crypto where
  keccak : List Nat → List Nat
  ecdsaVerify : Nat → List Nat → Nat → Bool
  encodeWithdrawPayload : List (MultiAssets × MultiLocation) → Nat → List Nat

/-- Runtime `Config` constants of the xcm-helper pallet, and the
`AssetCreateUpdateOrigin` origin check. -/
structure Cfg where
  withdrawalExecutionBlockDiff : Nat
  parachainId : Nat
  parachainNetworkId : Nat
  assetCreateOriginOk : Origin → Bool

/-- External collaborators (treated as oracles): the orml
`transfer_multiassets` call, `AssetManager::mint_into` and
`AssetManager::create`.  Each returns whether the call succeeded.
`Currency::deposit_creating` is infallible and needs no oracle. -/
structure Executor where
  transferMultiassets : MultiAssets → MultiLocation → Bool
  mintInto : Nat → Nat → Nat → Bool
  createAsset : Nat → Bool

/-- The storage of the xcm-helper pallet
(`src/pallets/xcm-helper/src/lib.rs:244-291`).  `StorageMap`s with
`ValueQuery` are total functions returning the default value. -/
structure XcmState where
  ingressMessages : List TheaMessage
  activeTheaKey : Option Nat
  withdrawNonce : Nat
  pendingWithdrawals : Nat → List PendingWithdrawal
  failedWithdrawals : Nat → List PendingWithdrawal
  theaAssets : Nat → Nat × Nat × List Nat
  whitelistedTokens : List Nat

/-- Point update of a map-like storage function. -/
def upd {α : Type} (f : Nat → α) (k : Nat) (v : α) : Nat → α :=
  fun n => if n = k then v else f n

theorem upd_same {α : Type} (f : Nat → α) (k : Nat) (v : α) :
    upd f k v k = v := by
  simp [upd]

theorem upd_other {α : Type} (f : Nat → α) (k n : Nat) (v : α) (h : n ≠ k) :
    upd f k v n = f n := by
  simp [upd, h]

/-- `u32::MAX`. -/
def u32max : Nat := 4294967295

/-- `u32::saturating_add` on values already in `u32` range. -/
def u32satAdd (a b : Nat) : Nat := min (min a u32max + min b u32max) u32max

/-! ## xcm-helper pallet: functions -/

/-- `is_polkadex_parachain_destination`
(`src/pallets/xcm-helper/src/lib.rs:686-693`); the
`VersionedMultiLocation → MultiLocation` conversion always succeeds for
the modelled `V1` values. -/
def is_polkadex_parachain_destination (destination : MultiLocation) : Bool :=
  destination.parents == 0

/-- `is_native_asset` (`src/pallets/xcm-helper/src/lib.rs:761-770`). -/
def is_native_asset (cfg : Cfg) (asset : AssetId) : Bool :=
  asset == .concrete ⟨1, .x1 (.parachain cfg.parachainId)⟩

/-- `get_destination_account`
(`src/pallets/xcm-helper/src/lib.rs:641-656`): only a 0-parent
`X1(AccountId32)` location denotes a local account; decoding the 32-byte
id into `T::AccountId` is modelled as the identity on the carried
number. -/
def get_destination_account (location : MultiLocation) : Option Nat :=
  if location.parents = 0 then
    match location.interior with
    | .x1 (.accountId32 _ accountId) => some accountId
    | _ => none
  else none

/-- `get_amount` (`src/pallets/xcm-helper/src/lib.rs:752-758`). -/
def get_amount : Fungibility → Option Nat
  | .fungible amount => some amount
  | .nonFungible => none

/-- `get_asset_info` (`src/pallets/xcm-helper/src/lib.rs:735-749`):
returns `(network_id, asset_identifier, identifier_length)`. -/
def get_asset_info (cfg : Cfg) (asset : AssetId) :
    Except XcmErr (Nat × List Nat × Nat) :=
  match asset with
  | .concrete assetLocation =>
    let assetIdentifier :=
      encodeParachainAsset ⟨assetLocation, .fungibleType⟩
    if assetIdentifier.length ≤ 1000 then
      .ok (cfg.parachainNetworkId, assetIdentifier, assetIdentifier.length)
    else .error .IdentifierLengthMismatch
  | .abstract _ => .error .AssetIdAbstractNotHandled

/-- `u128::from_le_bytes` on a byte list. -/
def u128fromLE (bs : List Nat) : Nat :=
  bs.foldr (fun b acc => b % 256 + 256 * acc) 0

/-- `get_asset_id` (`src/pallets/xcm-helper/src/lib.rs:726-732`): the
low 16 bytes of the keccak-256 hash, read little-endian. -/
def get_asset_id (cm : Crypto) (derivedAssetId : List Nat) : Nat :=
  u128fromLE ((cm.keccak derivedAssetId).take 16)

/-- `generate_asset_id_for_parachain`
(`src/pallets/xcm-helper/src/lib.rs:714-724`): network id byte, the
identifier length cast `as u8`, then the identifier bytes, hashed. -/
def generate_asset_id_for_parachain (cm : Crypto) (cfg : Cfg)
    (asset : AssetId) : Except XcmErr Nat :=
  match get_asset_info cfg asset with
  | .error e => .error e
  | .ok (networkId, assetIdentifier, identifierLength) =>
    .ok (get_asset_id cm
      (networkId :: identifierLength % 256 :: assetIdentifier))

/-- The `try_push` loop of `withdraw_asset`
(`src/pallets/xcm-helper/src/lib.rs:420-431`): each payload entry becomes
an unblocked `PendingWithdrawal` appended to the execution block's
bounded (capacity 100) bucket; the first overfull push aborts with
`PendingWithdrawalsLimitReached`. -/
def pushAll (st : XcmState) (blk : Nat) :
    List (MultiAssets × MultiLocation) → Except XcmErr XcmState
  | [] => .ok st
  | (asset, dest) :: rest =>
    let bucket := st.pendingWithdrawals blk
    if bucket.length < 100 then
      let pending2 := upd st.pendingWithdrawals blk (bucket ++ [⟨asset, dest, false⟩])
      pushAll { st with pendingWithdrawals := pending2 } blk rest
    else .error .PendingWithdrawalsLimitReached

/-- The dispatchable `withdraw_asset`
(`src/pallets/xcm-helper/src/lib.rs:393-437`).  Checks, in source order:
signed origin, nonce equality, key present, ECDSA signature over
`keccak(encode((payload, nonce)))`; then queues every payload entry for
`current_block + WithdrawalExecutionBlockDiff` (u32-saturating) and
finally stores the saturating-incremented nonce. -/
def withdraw_asset (cm : Crypto) (cfg : Cfg) (st : XcmState)
    (currentBlock : Nat) (origin : Origin)
    (payload : List (MultiAssets × MultiLocation))
    (withdrawNonce : Nat) (signature : Nat) : Except XcmErr XcmState :=
  match origin with
  | .signed _ =>
    let currentWithdrawNonce := st.withdrawNonce
    if withdrawNonce = currentWithdrawNonce then
      match st.activeTheaKey with
      | none => .error .PublicKeyNotSet
      | some publicKey =>
        let payloadHash :=
          cm.keccak (cm.encodeWithdrawPayload payload currentWithdrawNonce)
        if cm.ecdsaVerify signature payloadHash publicKey then
          let withdrawalExecutionBlock :=
            u32satAdd currentBlock cfg.withdrawalExecutionBlockDiff
          match pushAll st withdrawalExecutionBlock payload with
          | .error e => .error e
          | .ok st2 =>
            .ok { st2 with
              withdrawNonce := min (currentWithdrawNonce + 1) u32max }
        else .error .SignatureVerificationFailed
    else .error .NonceIsNotValid
  | _ => .error .BadOrigin

/-- The dispatchable `set_thea_key`
(`src/pallets/xcm-helper/src/lib.rs:472-483`): root only; stores the key
unconditionally, then records a `TheaKeySetBySudo` ingress message
(bounded by 20). -/
def set_thea_key (st : XcmState) (origin : Origin) (theaKey : Nat) :
    Except XcmErr XcmState :=
  match origin with
  | .root =>
    let st2 := { st with activeTheaKey := some theaKey }
    if st2.ingressMessages.length < 20 then
      .ok { st2 with ingressMessages :=
        st2.ingressMessages ++ [.theaKeySetBySudo theaKey] }
    else .error .IngressMessagesFull
  | _ => .error .BadOrigin

/-- The dispatchable `create_parachain_asset`
(`src/pallets/xcm-helper/src/lib.rs:491-512`): origin check, asset info,
derived id, external `AssetManager::create`, then the `TheaAssets`
insert.  Returns the created id (the source emits it in the
`TheaAssetCreated` event). -/
def create_parachain_asset (cm : Crypto) (cfg : Cfg) (ex : Executor)
    (st : XcmState) (origin : Origin) (asset : AssetId) :
    Except XcmErr (XcmState × Nat) :=
  if cfg.assetCreateOriginOk origin then
    match get_asset_info cfg asset with
    | .error e => .error e
    | .ok (networkId, assetIdentifier, identifierLength) =>
      match generate_asset_id_for_parachain cm cfg asset with
      | .error e => .error e
      | .ok assetId =>
        if ex.createAsset assetId then
          let assets2 :=
            upd st.theaAssets assetId
              (networkId, identifierLength % 256, assetIdentifier)
          .ok ({ st with theaAssets := assets2 }, assetId)
        else .error .External
  else .error .BadOrigin

/-- `convert_asset_id_to_location`
(`src/pallets/xcm-helper/src/lib.rs:798-808`): pure lookup of the stored
identifier and SCALE decode; never derives. -/
def convert_asset_id_to_location (st : XcmState) (assetId : Nat) :
    Option MultiLocation :=
  let assetIdentifier := (st.theaAssets assetId).2.2
  match decodeParachainAsset assetIdentifier with
  | some (asset, _) => some asset.location
  | none => none

/-- `deposit_native_token` (`src/pallets/xcm-helper/src/lib.rs:659-669`):
`Currency::deposit_creating` cannot fail, so only a non-fungible amount
errors. -/
def deposit_native_token (amount : Fungibility) : Except XcmErr Unit :=
  match get_amount amount with
  | some _ => .ok ()
  | none => .error .InternalError

/-- `deposit_non_native_token`
(`src/pallets/xcm-helper/src/lib.rs:672-683`). -/
def deposit_non_native_token (cm : Crypto) (cfg : Cfg) (ex : Executor)
    (destination : Nat) (asset : MultiAsset) : Except XcmErr Unit :=
  match generate_asset_id_for_parachain cm cfg asset.id with
  | .error e => .error e
  | .ok assetId =>
    match get_amount asset.fung with
    | some amount =>
      if ex.mintInto assetId destination amount then .ok ()
      else .error .External
    | none => .error .InternalError

/-- `handle_deposit` (`src/pallets/xcm-helper/src/lib.rs:619-638`).  The
versioned conversions always succeed for the modelled `V1` values; note
that an empty asset list falls through to `Ok(())` in the source. -/
def handle_deposit (cm : Crypto) (cfg : Cfg) (ex : Executor)
    (withdrawal : PendingWithdrawal) : Except XcmErr Unit :=
  match get_destination_account withdrawal.destination with
  | none => .error .InternalError
  | some destinationAccount =>
    match withdrawal.asset.head? with
    | some asset =>
      if is_native_asset cfg asset.id then
        deposit_native_token asset.fung
      else
        deposit_non_native_token cm cfg ex destinationAccount asset
    | none => .ok ()

/-- One iteration of the `on_initialize` drain loop
(`src/pallets/xcm-helper/src/lib.rs:350-375`): `true` iff the withdrawal
is not blocked and its transfer (foreign destination) or deposit (local
destination) succeeded, i.e. iff it is NOT pushed to the failed list. -/
def process_withdrawal_ok (cm : Crypto) (cfg : Cfg) (ex : Executor)
    (w : PendingWithdrawal) : Bool :=
  if !w.is_blocked then
    if !(is_polkadex_parachain_destination w.destination) then
      ex.transferMultiassets w.asset w.destination
    else
      match handle_deposit cm cfg ex w with
      | .ok _ => true
      | .error _ => false
  else false

/-- The drain loop of `on_initialize`: withdrawals in pop order, failed
ones appended (`try_push`) to the bounded (capacity 100) failed vector;
`none` models the `expect("Vector Overflow")` panic. -/
def drainAux (cm : Crypto) (cfg : Cfg) (ex : Executor) :
    List PendingWithdrawal → List PendingWithdrawal →
    Option (List PendingWithdrawal)
  | [], failed => some failed
  | w :: rest, failed =>
    if process_withdrawal_ok cm cfg ex w then drainAux cm cfg ex rest failed
    else if failed.length < 100 then
      drainAux cm cfg ex rest (failed ++ [w])
    else none

/-- The `on_initialize` hook (`src/pallets/xcm-helper/src/lib.rs:346-380`)
for block `n`: drains `PendingWithdrawals[n]` (popped from the back, hence
the `reverse`), stores the collected failures as `FailedWithdrawals[n]`
(overwriting), and kills the ingress message queue.  `none` models the
`expect("Vector Overflow")` panic. -/
def on_init (cm : Crypto) (cfg : Cfg) (ex : Executor) (st : XcmState)
    (n : Nat) : Option XcmState :=
  match drainAux cm cfg ex (st.pendingWithdrawals n).reverse [] with
  | some failed =>
    some { st with
      pendingWithdrawals := upd st.pendingWithdrawals n [],
      failedWithdrawals := upd st.failedWithdrawals n failed,
      ingressMessages := [] }
  | none => none

/-- `block_by_ele` (`src/pallets/xcm-helper/src/lib.rs:773-780`): marks
the withdrawal at `index` of block `blockNo`'s bucket as blocked, or
fails with `IndexNotFound`. -/
def block_by_ele (st : XcmState) (blockNo : Nat) (index : Nat) :
    Except XcmErr XcmState :=
  let pendingList := st.pendingWithdrawals blockNo
  match pendingList.get? index with
  | none => .error .IndexNotFound
  | some w =>
    let pending2 :=
      upd st.pendingWithdrawals blockNo
        (pendingList.set index { w with is_blocked := true })
    .ok { st with pendingWithdrawals := pending2 }

/-! ## thea-council pallet -/

/-- `Proposal<AccountId>` (`src/pallets/thea-council/src/lib.rs:56-60`). -/
inductive Proposal
  | addNewMember (member : Nat)
  | removeExistingMember (member : Nat)
deriving DecidableEq, Repr

/-- `Error<T>` of the thea-council pallet, plus `BadOrigin` and the
xcm-helper error forwarded by `delete_transaction`. -/
inductive CouncilErr
  | StorageOverflow
  | CouncilBadOrigin
  | AlreadyMember
  | NotPendingMember
  | SenderNotCouncilMember
  | SenderAlreadyVoted
  | NotActiveMember
  | Xcm (e : XcmErr)
deriving DecidableEq, Repr

/-- The storage of the thea-council pallet
(`src/pallets/thea-council/src/lib.rs:76-97`).  The `Proposals`
`StorageMap` is an association list so that key presence (proposal
deletion) is observable; the vote lists are `Voted<AccountId>` wrappers in
the source, modelled as the bare account ids. -/
structure CouncilState where
  activeCouncilMembers : List Nat
  pendingCouncilMembers : List Nat
  proposals : List (Proposal × List Nat)
deriving DecidableEq, Repr

/-- `Proposals::get` (`ValueQuery`: absent keys yield the empty vote
list). -/
def proposalsGet : List (Proposal × List Nat) → Proposal → List Nat
  | [], _ => []
  | kv :: tl, p => if kv.1 == p then kv.2 else proposalsGet tl p

/-- Write-back of a mutated `Proposals` entry (replace the value at the
key, or add the key). -/
def proposalsInsert : List (Proposal × List Nat) → Proposal → List Nat →
    List (Proposal × List Nat)
  | [], p, v => [(p, v)]
  | kv :: tl, p, v =>
    if kv.1 == p then (p, v) :: tl else kv :: proposalsInsert tl p v

/-- `Proposals::remove` (`src/pallets/thea-council/src/lib.rs:244-246`). -/
def proposalsRemove : List (Proposal × List Nat) → Proposal →
    List (Proposal × List Nat)
  | [], _ => []
  | kv :: tl, p =>
    if kv.1 == p then proposalsRemove tl p else kv :: proposalsRemove tl p

/-- Whether a key is present in the `Proposals` map (`contains_key`). -/
def proposalsHasKey : List (Proposal × List Nat) → Proposal → Bool
  | [], _ => false
  | kv :: tl, p => kv.1 == p || proposalsHasKey tl p

/-- `is_council_member` (`src/pallets/thea-council/src/lib.rs:198-201`). -/
def is_council_member (st : CouncilState) (sender : Nat) : Bool :=
  st.activeCouncilMembers.contains sender

/-- `execute_add_member` (`src/pallets/thea-council/src/lib.rs:256-264`):
push onto the bounded (capacity 10) pending list. -/
def execute_add_member (st : CouncilState) (newMember : Nat) :
    Except CouncilErr CouncilState :=
  if st.pendingCouncilMembers.length < 10 then
    .ok { st with pendingCouncilMembers :=
            st.pendingCouncilMembers ++ [newMember] }
  else .error .StorageOverflow

/-- `execute_remove_member`
(`src/pallets/thea-council/src/lib.rs:266-276`): remove the first
matching active member by position. -/
def execute_remove_member (st : CouncilState) (memberToBeRemoved : Nat) :
    Except CouncilErr CouncilState :=
  match st.activeCouncilMembers.findIdx? (fun member => member == memberToBeRemoved) with
  | some index =>
    .ok { st with activeCouncilMembers :=
            st.activeCouncilMembers.eraseIdx index }
  | none => .error .NotActiveMember

/-- `execute_proposal` (`src/pallets/thea-council/src/lib.rs:248-254`). -/
def execute_proposal (st : CouncilState) (proposal : Proposal) :
    Except CouncilErr CouncilState :=
  match proposal with
  | .addNewMember newMember => execute_add_member st newMember
  | .removeExistingMember memberToBeRemoved =>
    execute_remove_member st memberToBeRemoved

/-- `evaluate_proposal` (`src/pallets/thea-council/src/lib.rs:218-242`):
duplicate-vote check, `try_push` of the vote (capacity 100), quorum test
`current_votes >= 2 * |active| / 3` and, on quorum, execution of the
proposal's effect followed by removal of the proposal.  The whole body
sits inside `Proposals::try_mutate` and a transactional dispatch, so any
error rolls everything back. -/
def evaluate_proposal (st : CouncilState) (proposal : Proposal)
    (sender : Nat) : Except CouncilErr CouncilState :=
  let votes := proposalsGet st.proposals proposal
  if votes.contains sender then .error .SenderAlreadyVoted
  else if votes.length < 100 then
    let votes2 := votes ++ [sender]
    let expectedVotes := st.activeCouncilMembers.length * 2 / 3
    if votes2.length ≥ expectedVotes then
      match execute_proposal st proposal with
      | .error e => .error e
      | .ok st2 =>
        let proposals2 :=
          proposalsRemove (proposalsInsert st2.proposals proposal votes2) proposal
        .ok { st2 with proposals := proposals2 }
    else
      .ok { st with proposals := proposalsInsert st.proposals proposal votes2 }
  else .error .StorageOverflow

/-- The dispatchable `add_member`
(`src/pallets/thea-council/src/lib.rs:144-149`). -/
def add_member (st : CouncilState) (origin : Origin) (newMember : Nat) :
    Except CouncilErr CouncilState :=
  match origin with
  | .signed sender =>
    if is_council_member st sender then
      evaluate_proposal st (.addNewMember newMember) sender
    else .error .SenderNotCouncilMember
  | _ => .error .CouncilBadOrigin

/-- The dispatchable `remove_member`
(`src/pallets/thea-council/src/lib.rs:156-165`). -/
def remove_member (st : CouncilState) (origin : Origin)
    (memberToBeRemoved : Nat) : Except CouncilErr CouncilState :=
  match origin with
  | .signed sender =>
    if is_council_member st sender then
      evaluate_proposal st (.removeExistingMember memberToBeRemoved) sender
    else .error .SenderNotCouncilMember
  | _ => .error .CouncilBadOrigin

/-- `do_claim_membership` (`src/pallets/thea-council/src/lib.rs:278-293`):
move the caller from the pending list to the bounded (capacity 10) active
list. -/
def do_claim_membership (st : CouncilState) (sender : Nat) :
    Except CouncilErr CouncilState :=
  if st.pendingCouncilMembers.contains sender then
    match st.pendingCouncilMembers.findIdx? (fun member => member == sender) with
    | some index =>
      let pending2 := st.pendingCouncilMembers.eraseIdx index
      if st.activeCouncilMembers.length < 10 then
        .ok { st with
          pendingCouncilMembers := pending2,
          activeCouncilMembers := st.activeCouncilMembers ++ [sender] }
      else .error .StorageOverflow
    | none => .error .NotActiveMember
  else .error .NotPendingMember

/-- The dispatchable `claim_membership`
(`src/pallets/thea-council/src/lib.rs:170-175`). -/
def claim_membership (st : CouncilState) (origin : Origin) :
    Except CouncilErr CouncilState :=
  match origin with
  | .signed sender => do_claim_membership st sender
  | _ => .error .CouncilBadOrigin

/-- The dispatchable `delete_transaction`
(`src/pallets/thea-council/src/lib.rs:184-194`): council-membership gate,
then the xcm-helper veto `block_by_ele`. -/
def delete_transaction (cst : CouncilState) (xst : XcmState)
    (origin : Origin) (blockNo : Nat) (index : Nat) :
    Except CouncilErr XcmState :=
  match origin with
  | .signed sender =>
    if is_council_member cst sender then
      match block_by_ele xst blockNo index with
      | .ok xst2 => .ok xst2
      | .error e => .error (.Xcm e)
    else .error .SenderNotCouncilMember
  | _ => .error .CouncilBadOrigin

/-! ## Helper lemmas -/

theorem pushAll_ok_inv (blk : Nat) :
    ∀ (payload : List (MultiAssets × MultiLocation)) (st st' : XcmState),
    pushAll st blk payload = .ok st' →
    st'.pendingWithdrawals blk
      = st.pendingWithdrawals blk
        ++ payload.map (fun pd => ⟨pd.1, pd.2, false⟩)
    ∧ st'.withdrawNonce = st.withdrawNonce
    ∧ st'.activeTheaKey = st.activeTheaKey
    ∧ st'.ingressMessages = st.ingressMessages
    ∧ st'.failedWithdrawals = st.failedWithdrawals
    ∧ st'.theaAssets = st.theaAssets
    ∧ (∀ m, m ≠ blk → st'.pendingWithdrawals m = st.pendingWithdrawals m) := by
  intro payload
  induction payload with
  | nil =>
    intro st st' h
    simp only [pushAll] at h
    cases h
    simp
  | cons pd rest ih =>
    intro st st' h
    obtain ⟨asset, dest⟩ := pd
    simp only [pushAll] at h
    split at h
    · obtain ⟨h1, h2, h3, h4, h5, h6, h7⟩ := ih _ _ h
      refine ⟨?_, h2, h3, h4, h5, h6, ?_⟩
      · rw [h1]
        simp [upd_same, List.append_assoc]
      · intro m hm
        rw [h7 m hm]
        simp [upd_other _ _ _ _ hm]
    · cases h

theorem pushAll_error_of_overflow (blk : Nat) :
    ∀ (payload : List (MultiAssets × MultiLocation)) (st : XcmState),
    (st.pendingWithdrawals blk).length ≤ 100 →
    (st.pendingWithdrawals blk).length + payload.length > 100 →
    pushAll st blk payload = .error .PendingWithdrawalsLimitReached := by
  intro payload
  induction payload with
  | nil =>
    intro st hle hgt
    simp at hgt
    omega
  | cons pd rest ih =>
    intro st hle hgt
    obtain ⟨asset, dest⟩ := pd
    simp only [pushAll]
    split
    · apply ih
      · simp [upd_same]
        omega
      · simp [upd_same] at *
        omega
    · rfl

theorem withdraw_asset_ok_inv (cm : Crypto) (cfg : Cfg) (st : XcmState)
    (currentBlock : Nat) (origin : Origin)
    (payload : List (MultiAssets × MultiLocation))
    (withdrawNonce : Nat) (signature : Nat) (st' : XcmState)
    (h : withdraw_asset cm cfg st currentBlock origin payload withdrawNonce
          signature = .ok st') :
    withdrawNonce = st.withdrawNonce
    ∧ st'.withdrawNonce = min (st.withdrawNonce + 1) u32max
    ∧ st'.activeTheaKey = st.activeTheaKey := by
  unfold withdraw_asset at h
  cases origin with
  | root => simp at h
  | unsignedOrigin => simp at h
  | signed s =>
    simp only at h
    split at h
    · rename_i hnonce
      split at h
      · cases h
      · rename_i pk hkey
        split at h
        · split at h
          · cases h
          · rename_i st2 hpush
            obtain ⟨_, h2, h3, _, _, _, _⟩ := pushAll_ok_inv _ _ _ _ hpush
            cases h
            exact ⟨hnonce, by simp [h2], by simp [h3, hkey]⟩
        · cases h
    · cases h

theorem drainAux_some_char (cm : Crypto) (cfg : Cfg) (ex : Executor) :
    ∀ (ws failed out : List PendingWithdrawal),
    drainAux cm cfg ex ws failed = some out →
    out = failed ++ ws.filter (fun w => !process_withdrawal_ok cm cfg ex w) := by
  intro ws
  induction ws with
  | nil =>
    intro failed out h
    simp only [drainAux] at h
    cases h
    simp
  | cons w rest ih =>
    intro failed out h
    simp only [drainAux] at h
    split at h
    · rename_i hok
      rw [ih _ _ h]
      simp [List.filter_cons, hok]
    · rename_i hok
      split at h
      · rw [ih _ _ h]
        simp [List.filter_cons, hok, List.append_assoc]
      · cases h

theorem drainAux_isSome (cm : Crypto) (cfg : Cfg) (ex : Executor) :
    ∀ (ws failed : List PendingWithdrawal),
    ws.length + failed.length ≤ 100 →
    ∃ out, drainAux cm cfg ex ws failed = some out := by
  intro ws
  induction ws with
  | nil =>
    intro failed _
    exact ⟨failed, rfl⟩
  | cons w rest ih =>
    intro failed hlen
    simp only [drainAux]
    split
    · exact ih failed (by simp at hlen ⊢; omega)
    · split
      · exact ih (failed ++ [w]) (by simp at hlen ⊢; omega)
      · rename_i hroom
        exfalso
        simp at hlen hroom
        omega

theorem on_init_some_inv (cm : Crypto) (cfg : Cfg) (ex : Executor)
    (st : XcmState) (n : Nat) (st' : XcmState)
    (h : on_init cm cfg ex st n = some st') :
    st'.pendingWithdrawals n = []
    ∧ st'.failedWithdrawals n
        = (st.pendingWithdrawals n).reverse.filter
            (fun w => !process_withdrawal_ok cm cfg ex w)
    ∧ st'.activeTheaKey = st.activeTheaKey
    ∧ st'.withdrawNonce = st.withdrawNonce
    ∧ st'.theaAssets = st.theaAssets
    ∧ (∀ m, m ≠ n → st'.pendingWithdrawals m = st.pendingWithdrawals m
        ∧ st'.failedWithdrawals m = st.failedWithdrawals m) := by
  unfold on_init at h
  split at h
  · rename_i failed hdrain
    have hchar := drainAux_some_char cm cfg ex _ _ _ hdrain
    cases h
    refine ⟨by simp [upd_same], ?_, rfl, rfl, rfl, ?_⟩
    · simp only [upd_same]
      simpa using hchar
    · intro m hm
      exact ⟨upd_other _ _ _ _ hm, upd_other _ _ _ _ hm⟩
  · cases h

theorem on_init_isSome (cm : Crypto) (cfg : Cfg) (ex : Executor)
    (st : XcmState) (n : Nat)
    (hlen : (st.pendingWithdrawals n).length ≤ 100) :
    ∃ st', on_init cm cfg ex st n = some st' := by
  obtain ⟨out, hout⟩ := drainAux_isSome cm cfg ex
    (st.pendingWithdrawals n).reverse [] (by simpa using hlen)
  unfold on_init
  rw [hout]
  exact ⟨_, rfl⟩

theorem proposalsGet_insert (ps : List (Proposal × List Nat)) (p : Proposal)
    (v : List Nat) : proposalsGet (proposalsInsert ps p v) p = v := by
  induction ps with
  | nil => simp [proposalsInsert, proposalsGet]
  | cons kv tl ih =>
    by_cases h : kv.1 = p
    · simp [proposalsInsert, proposalsGet, h]
    · simp [proposalsInsert, proposalsGet, h, ih]

theorem proposalsHasKey_insert (ps : List (Proposal × List Nat))
    (p : Proposal) (v : List Nat) :
    proposalsHasKey (proposalsInsert ps p v) p = true := by
  induction ps with
  | nil => simp [proposalsInsert, proposalsHasKey]
  | cons kv tl ih =>
    by_cases h : kv.1 = p
    · simp [proposalsInsert, proposalsHasKey, h]
    · simp [proposalsInsert, proposalsHasKey, h, ih]

theorem proposalsHasKey_remove (ps : List (Proposal × List Nat))
    (p : Proposal) : proposalsHasKey (proposalsRemove ps p) p = false := by
  induction ps with
  | nil => simp [proposalsRemove, proposalsHasKey]
  | cons kv tl ih =>
    by_cases h : kv.1 = p
    · simp [proposalsRemove, h, ih]
    · simp [proposalsRemove, proposalsHasKey, h, ih]

/-! ## Concrete fixtures shared by witnesses and counterexamples -/

/-- A concrete crypto model: constant hash, signature verification always
succeeds. -/
def cmW : Crypto := ⟨fun _ => [], fun _ _ _ => true, fun _ _ => []⟩

/-- A concrete crypto model whose hash is the identity on byte lists. -/
def cmId : Crypto := ⟨fun l => l, fun _ _ _ => true, fun _ _ => []⟩

/-- A concrete crypto model whose hash output is sixteen `0x01` bytes. -/
def cmOnes : Crypto :=
  ⟨fun _ => List.replicate 16 1, fun _ _ _ => true, fun _ _ => []⟩

/-- Concrete runtime constants (the simulator runtime sets
`WithdrawalExecutionBlockDiff = 7000` and `ParachainNetworkId = 1`,
`src/xcm-simulator/src/parachain.rs:418-423`; asset creation is
root-gated). -/
def cfgW : Cfg := ⟨7000, 2040, 1, fun o => o == .root⟩

/-- An executor for which every external call succeeds. -/
def exW : Executor := ⟨fun _ _ => true, fun _ _ _ => true, fun _ => true⟩

/-- An asset value used to make a transfer fail. -/
def maFail : MultiAsset := ⟨.abstract [7], .fungible 1⟩

/-- An executor whose `transfer_multiassets` fails exactly on `[maFail]`. -/
def exPick : Executor :=
  ⟨fun a _ => !(a == [maFail]), fun _ _ _ => true, fun _ => true⟩

/-- An xcm-helper state with relay key `key`, nonce `nonce` and otherwise
empty storage. -/
def stKey (key : Nat) (nonce : Nat) : XcmState :=
  ⟨[], some key, nonce, fun _ => [], fun _ => [], fun _ => (0, 0, []), []⟩

/-- An xcm-helper state with no relay key and empty storage. -/
def stEmpty : XcmState :=
  ⟨[], none, 0, fun _ => [], fun _ => [], fun _ => (0, 0, []), []⟩

/-- A trivial pending withdrawal for filling buckets. -/
def wdef : PendingWithdrawal := ⟨[], ⟨0, .here⟩, false⟩

/-- An xcm-helper state whose bucket for block 7001 is full (100
entries). -/
def stFull : XcmState :=
  ⟨[], some 5, 3,
   fun n => if n = 7001 then List.replicate 100 wdef else [],
   fun _ => [], fun _ => (0, 0, []), []⟩

/-! ## Claim C1 -/

/-- Claim C1 (amended): a successful `withdraw_asset` call was accepted
exactly at the stored nonce `k`, the stored nonce afterwards is
`k.saturating_add(1)` (one increment per accepted call), and — provided
`k < u32::MAX` — resubmitting the same `(payload, nonce, signature)`
triple against the post state fails with `NonceIsNotValid`, produced by
the nonce check (which the source places before the key lookup and the
signature check, and which fires here for every crypto model, even one
whose verification always succeeds).  The amendment restricts the
replay rejection to `k < u32::MAX`: at `k = u32::MAX` the saturating
increment leaves the nonce unchanged and the same triple is accepted
again (see `withdraw_nonce_saturation_cex`). -/
theorem withdraw_nonce_increment_and_replay
    (cm : Crypto) (cfg : Cfg) (st : XcmState) (currentBlock : Nat)
    (origin : Origin) (payload : List (MultiAssets × MultiLocation))
    (k signature : Nat) (st' : XcmState)
    (h : withdraw_asset cm cfg st currentBlock origin payload k signature
          = .ok st') :
    k = st.withdrawNonce
    ∧ st'.withdrawNonce = min (k + 1) u32max
    ∧ (k < u32max → ∀ (cb2 s2 : Nat),
        withdraw_asset cm cfg st' cb2 (.signed s2) payload k signature
          = .error .NonceIsNotValid) := by
  obtain ⟨h1, h2, _⟩ := withdraw_asset_ok_inv cm cfg st currentBlock origin
    payload k signature st' h
  subst h1
  refine ⟨rfl, h2, ?_⟩
  intro hk cb2 s2
  have hne : ¬ (st.withdrawNonce = st'.withdrawNonce) := by
    rw [h2]
    simp only [u32max] at hk ⊢
    omega
  simp only [withdraw_asset]
  rw [if_neg hne]

/-- Claim C1, witness: a concrete accepted call at nonce 0; the stored
nonce becomes 1 and the replay is rejected with `NonceIsNotValid`. -/
theorem withdraw_nonce_increment_and_replay_wit :
    withdraw_asset cmW cfgW (stKey 5 1) 2 (.signed 9) [] 0 0
      = .error .NonceIsNotValid := by
  have h := withdraw_nonce_increment_and_replay cmW cfgW (stKey 5 0) 1
    (.signed 1) [] 0 0 (stKey 5 1) rfl
  exact h.2.2 (by decide) 2 9

/-- Claim C1, counterexample: from a state whose stored nonce is
`u32::MAX` the call is accepted, the saturating increment leaves the
state (in particular the nonce) unchanged, and the identical second
submission is accepted again rather than failing with
`NonceIsNotValid`. -/
theorem withdraw_nonce_saturation_cex :
    withdraw_asset cmW cfgW (stKey 5 u32max) 1 (.signed 1) [] u32max 0
      = .ok (stKey 5 u32max)
    ∧ ¬ (withdraw_asset cmW cfgW (stKey 5 u32max) 1 (.signed 1) [] u32max 0
          = .error .NonceIsNotValid) := by
  have h1 : withdraw_asset cmW cfgW (stKey 5 u32max) 1 (.signed 1) [] u32max 0
      = .ok (stKey 5 u32max) := rfl
  refine ⟨h1, ?_⟩
  intro hc
  rw [h1] at hc
  exact Except.noConfusion hc

/-! ## Claim C5 -/

/-- Claim C5 (confirmed): when the batch would overflow the execution
block's bounded (capacity 100) pending list, the whole `withdraw_asset`
call fails with `PendingWithdrawalsLimitReached`; because Substrate
dispatch is transactional, the `Except.error` result means no request of
the batch is inserted (the model returns no post state on error, matching
the rolled-back extrinsic). -/
theorem withdraw_batch_queue_full
    (cm : Crypto) (cfg : Cfg) (st : XcmState) (currentBlock : Nat)
    (s : Nat) (payload : List (MultiAssets × MultiLocation))
    (signature : Nat) (pk : Nat)
    (hkey : st.activeTheaKey = some pk)
    (hsig : cm.ecdsaVerify signature
        (cm.keccak (cm.encodeWithdrawPayload payload st.withdrawNonce)) pk
        = true)
    (hcap : (st.pendingWithdrawals
        (u32satAdd currentBlock cfg.withdrawalExecutionBlockDiff)).length
        ≤ 100)
    (hover : (st.pendingWithdrawals
        (u32satAdd currentBlock cfg.withdrawalExecutionBlockDiff)).length
        + payload.length > 100) :
    withdraw_asset cm cfg st currentBlock (.signed s) payload
      st.withdrawNonce signature
      = .error .PendingWithdrawalsLimitReached := by
  have hpush := pushAll_error_of_overflow
    (u32satAdd currentBlock cfg.withdrawalExecutionBlockDiff) payload st
    hcap hover
  simp only [withdraw_asset, hkey, hsig, if_pos rfl, if_true, hpush]

/-- Claim C5, witness: a bucket already holding 100 entries rejects a
batch of one with `PendingWithdrawalsLimitReached`. -/
theorem withdraw_batch_queue_full_wit :
    withdraw_asset cmW cfgW stFull 1 (.signed 9) [([], ⟨0, .here⟩)] 3 0
      = .error .PendingWithdrawalsLimitReached := by
  have h := withdraw_batch_queue_full cmW cfgW stFull 1 9 [([], ⟨0, .here⟩)]
    0 5 rfl rfl (by decide) (by decide)
  exact h

/-! ## Claim C10 -/

/-- Claim C10 (confirmed): the drain of `on_initialize` never hits the
`expect("Vector Overflow")` panic.  The pending bucket is a bounded
vector of capacity 100 and at most one element is `try_push`ed into the
freshly created failed vector (also capacity 100) per popped element, so
the drain always completes (`none` would model the panic). -/
theorem drain_no_overflow (cm : Crypto) (cfg : Cfg) (ex : Executor)
    (st : XcmState) (n : Nat)
    (hlen : (st.pendingWithdrawals n).length ≤ 100) :
    ∃ st', on_init cm cfg ex st n = some st' :=
  on_init_isSome cm cfg ex st n hlen

/-- Claim C10, witness: the drain of a full (100 entry) bucket completes
without the overflow panic. -/
theorem drain_no_overflow_wit :
    ∃ st', on_init cmW cfgW exW stFull 7001 = some st' :=
  drain_no_overflow cmW cfgW exW stFull 7001 (by decide)

/-! ## Claim C4 -/

/-- Claim C4 (confirmed): after the per-block drain of block `n` the
pending bucket for `n` is empty; the failed bucket for `n` holds exactly
the entries (in pop order, i.e. reversed) that were blocked or whose
transfer / deposit failed; every other entry was handed to the executor
and dropped (it is in neither bucket); and one item's failure never
aborts its siblings — the failed bucket is a pointwise filter of the
drained bucket, so with two entries of which only the first fails,
exactly one lands in `FailedWithdrawals` (see the witness). -/
theorem drain_block_semantics (cm : Crypto) (cfg : Cfg) (ex : Executor)
    (st : XcmState) (n : Nat) (st' : XcmState)
    (h : on_init cm cfg ex st n = some st') :
    st'.pendingWithdrawals n = []
    ∧ st'.failedWithdrawals n
        = (st.pendingWithdrawals n).reverse.filter
            (fun w => !process_withdrawal_ok cm cfg ex w)
    ∧ (∀ w ∈ st.pendingWithdrawals n,
        process_withdrawal_ok cm cfg ex w = false →
        w ∈ st'.failedWithdrawals n)
    ∧ (∀ w ∈ st.pendingWithdrawals n,
        process_withdrawal_ok cm cfg ex w = true →
        w ∉ st'.failedWithdrawals n) := by
  obtain ⟨h1, h2, _, _, _, _⟩ := on_init_some_inv cm cfg ex st n st' h
  refine ⟨h1, h2, ?_, ?_⟩
  · intro w hw hfail
    rw [h2]
    rw [List.mem_filter]
    exact ⟨by simpa using hw, by simp [hfail]⟩
  · intro w hw hok
    rw [h2]
    intro hmem
    rw [List.mem_filter] at hmem
    rw [hok] at hmem
    simpa using hmem.2

/-- An xcm-helper state whose bucket for block 5 holds two entries: one
whose transfer will fail under `exPick` and one whose transfer
succeeds. -/
def stTwoMix : XcmState :=
  ⟨[], none, 0,
   upd (fun _ => []) 5 [⟨[maFail], ⟨1, .here⟩, false⟩, ⟨[], ⟨1, .here⟩, false⟩],
   fun _ => [], fun _ => (0, 0, []), []⟩

/-- Claim C4, witness: a bucket with two entries whose transfer fails for
the first and succeeds for the second leaves exactly the first entry in
`FailedWithdrawals` and an empty pending bucket. -/
theorem drain_block_semantics_wit :
    ∃ st', on_init cmW cfgW exPick stTwoMix 5 = some st'
      ∧ st'.pendingWithdrawals 5 = []
      ∧ st'.failedWithdrawals 5 = [⟨[maFail], ⟨1, .here⟩, false⟩] := by
  obtain ⟨st', hst⟩ := on_init_isSome cmW cfgW exPick stTwoMix 5
    (by simp [stTwoMix, upd])
  obtain ⟨h1, h2, _, _⟩ := drain_block_semantics cmW cfgW exPick _ 5 st' hst
  refine ⟨st', hst, h1, ?_⟩
  rw [h2]
  rfl

/-! ## Claim C3 -/

theorem process_withdrawal_blocked (cm : Crypto) (cfg : Cfg) (ex : Executor)
    (w : PendingWithdrawal) (h : w.is_blocked = true) :
    process_withdrawal_ok cm cfg ex w = false := by
  simp [process_withdrawal_ok, h]

/-- Claim C3 (confirmed): a veto (`block_by_ele`, reached through the
council's `delete_transaction`) on a valid index of a not-yet-drained
bucket succeeds and sets `is_blocked`; draining that block then moves the
blocked entry into `FailedWithdrawals[n]` and empties the bucket; and any
veto issued after the drain fails with `IndexNotFound` (the model returns
no state on error, matching the unchanged rolled-back storage). -/
theorem veto_before_after_drain (cm : Crypto) (cfg : Cfg) (ex : Executor)
    (st : XcmState) (n i : Nat) (w : PendingWithdrawal)
    (hget : (st.pendingWithdrawals n).get? i = some w)
    (hlen : (st.pendingWithdrawals n).length ≤ 100) :
    ∃ stV, block_by_ele st n i = .ok stV
      ∧ (stV.pendingWithdrawals n).get? i
          = some { w with is_blocked := true }
      ∧ ∃ stD, on_init cm cfg ex stV n = some stD
        ∧ { w with is_blocked := true } ∈ stD.failedWithdrawals n
        ∧ stD.pendingWithdrawals n = []
        ∧ ∀ j, block_by_ele stD n j = .error .IndexNotFound := by
  have hi : i < (st.pendingWithdrawals n).length := by
    by_contra hc
    push_neg at hc
    rw [List.get?_eq_none.mpr hc] at hget
    exact Option.noConfusion hget
  refine ⟨{ st with pendingWithdrawals := upd st.pendingWithdrawals n ((st.pendingWithdrawals n).set i { w with is_blocked := true }) }, ?_, ?_, ?_⟩
  · unfold block_by_ele
    simp only [hget]
  · simp only [upd_same]
    rw [List.get?_eq_getElem?]
    exact List.getElem?_set_eq_of_lt _ hi
  · obtain ⟨stD, hdrain⟩ := on_init_isSome cm cfg ex
      { st with pendingWithdrawals := upd st.pendingWithdrawals n ((st.pendingWithdrawals n).set i { w with is_blocked := true }) } n
      (by simp only [upd_same, List.length_set]; exact hlen)
    obtain ⟨hp, hf, _, _, _, _⟩ := on_init_some_inv cm cfg ex _ n stD hdrain
    refine ⟨stD, hdrain, ?_, hp, ?_⟩
    · rw [hf]
      rw [List.mem_filter]
      constructor
      · rw [List.mem_reverse]
        simp only [upd_same]
        apply List.get?_mem
        rw [List.get?_eq_getElem?]
        exact List.getElem?_set_eq_of_lt _ hi
      · have hb := process_withdrawal_blocked cm cfg ex
          ⟨w.asset, w.destination, true⟩ rfl
        simp [hb]
    · intro j
      unfold block_by_ele
      rw [hp]
      rfl

/-- An xcm-helper state whose bucket for block 9 holds one entry. -/
def stOnePend : XcmState :=
  ⟨[], none, 0, upd (fun _ => []) 9 [⟨[], ⟨1, .here⟩, false⟩],
   fun _ => [], fun _ => (0, 0, []), []⟩

/-- Claim C3, witness: the one-entry bucket for block 9 is vetoed at
index 0, the blocked entry lands in `FailedWithdrawals[9]` after the
drain, and any veto after the drain fails with `IndexNotFound`. -/
theorem veto_before_after_drain_wit :
    ∃ stV, block_by_ele stOnePend 9 0 = .ok stV
      ∧ (stV.pendingWithdrawals 9).get? 0
          = some ⟨[], ⟨1, .here⟩, true⟩
      ∧ ∃ stD, on_init cmW cfgW exW stV 9 = some stD
        ∧ (⟨[], ⟨1, .here⟩, true⟩ : PendingWithdrawal)
            ∈ stD.failedWithdrawals 9
        ∧ stD.pendingWithdrawals 9 = []
        ∧ ∀ j, block_by_ele stD 9 j = .error .IndexNotFound :=
  veto_before_after_drain cmW cfgW exW stOnePend 9 0
    ⟨[], ⟨1, .here⟩, false⟩ rfl (by simp [stOnePend, upd])

/-! ## Claim C6 -/

/-- Claim C6 (amended): `set_thea_key` succeeds only for the root caller;
for root it stores the key unconditionally — also when a relay key is
already set, which the claim rules out — and on success it leaves the
withdrawal nonce exactly as it was (the claim's reset to 0 does not
happen; see `set_thea_key_cex`). -/
theorem set_thea_key_semantics (st : XcmState) (k : Nat) :
    (∀ (origin : Origin) (st' : XcmState),
      set_thea_key st origin k = .ok st' → origin = .root)
    ∧ (st.ingressMessages.length < 20 →
        set_thea_key st .root k
          = .ok { st with activeTheaKey := some k, ingressMessages := st.ingressMessages ++ [.theaKeySetBySudo k] })
    ∧ (∀ st', set_thea_key st .root k = .ok st' →
        st'.withdrawNonce = st.withdrawNonce ∧ st'.activeTheaKey = some k) := by
  refine ⟨?_, ?_, ?_⟩
  · intro origin st' h
    cases origin with
    | root => rfl
    | signed s => simp [set_thea_key] at h
    | unsignedOrigin => simp [set_thea_key] at h
  · intro hlen
    simp only [set_thea_key]
    rw [if_pos hlen]
  · intro st' h
    simp only [set_thea_key] at h
    split at h
    · cases h
      exact ⟨rfl, rfl⟩
    · cases h

/-- Claim C6, witness: the root call on a state whose key is already set
(key 1, nonce 7) succeeds, overwrites it with key 9, and keeps nonce 7. -/
theorem set_thea_key_semantics_wit :
    set_thea_key (stKey 1 7) .root 9
      = .ok { stKey 1 7 with activeTheaKey := some 9, ingressMessages := [.theaKeySetBySudo 9] } := by
  have h := (set_thea_key_semantics (stKey 1 7) 9).2.1 (by decide)
  exact h

/-- Claim C6, as stated: a successful root `set_thea_key` call implies no
key was previously set (bootstrap only) and the stored nonce is reset to
0. -/
def setKeyClaimAsStated : Prop :=
  ∀ (st : XcmState) (k : Nat) (st' : XcmState),
    set_thea_key st .root k = .ok st' →
    st.activeTheaKey = none ∧ st'.withdrawNonce = 0

/-- Claim C6, counterexample: from a state whose key is already set (key
1) and whose nonce is 7, the root call succeeds — there is no
bootstrap-only check — and the nonce stays 7 instead of resetting to
0. -/
theorem set_thea_key_cex : ¬ setKeyClaimAsStated := by
  intro hclaim
  obtain ⟨h1, _⟩ := hclaim (stKey 1 7) 9
    { stKey 1 7 with activeTheaKey := some 9, ingressMessages := [.theaKeySetBySudo 9] } rfl
  exact Option.noConfusion h1

/-! ## Claim C2 -/

/-- Claim C2 (amended): a vote via `add_member` / `remove_member` fails
with `SenderNotCouncilMember` when the sender is not an active member and
with `SenderAlreadyVoted` when the sender already voted on that proposal;
otherwise the vote is appended, and when the updated count reaches
`floor(2 * |active| / 3)` the proposal's effect is applied and the
proposal deleted in the same step — PROVIDED applying the effect
succeeds.  The amendment adds that proviso: when the effect fails
(pending set at capacity for an admit, target not an active member for a
removal) the whole call errors and, dispatch being transactional, the
vote is rolled back with it (see `quorum_vote_apply_cex`). -/
theorem quorum_vote_semantics (st : CouncilState) (s m : Nat) :
    (is_council_member st s = false →
        add_member st (.signed s) m = .error .SenderNotCouncilMember
      ∧ remove_member st (.signed s) m = .error .SenderNotCouncilMember)
    ∧ (is_council_member st s = true →
        add_member st (.signed s) m = evaluate_proposal st (.addNewMember m) s
      ∧ remove_member st (.signed s) m
          = evaluate_proposal st (.removeExistingMember m) s)
    ∧ (∀ p : Proposal,
        (s ∈ proposalsGet st.proposals p →
          evaluate_proposal st p s = .error .SenderAlreadyVoted)
      ∧ (s ∉ proposalsGet st.proposals p →
          (proposalsGet st.proposals p).length < 100 →
          ((proposalsGet st.proposals p).length + 1
              ≥ st.activeCouncilMembers.length * 2 / 3 →
            ∀ st2, execute_proposal st p = .ok st2 →
            ∃ st', evaluate_proposal st p s = .ok st'
              ∧ st'.activeCouncilMembers = st2.activeCouncilMembers
              ∧ st'.pendingCouncilMembers = st2.pendingCouncilMembers
              ∧ proposalsHasKey st'.proposals p = false)
          ∧ ((proposalsGet st.proposals p).length + 1
              < st.activeCouncilMembers.length * 2 / 3 →
            ∃ st', evaluate_proposal st p s = .ok st'
              ∧ st'.activeCouncilMembers = st.activeCouncilMembers
              ∧ st'.pendingCouncilMembers = st.pendingCouncilMembers
              ∧ proposalsGet st'.proposals p
                  = proposalsGet st.proposals p ++ [s]
              ∧ proposalsHasKey st'.proposals p = true))) := by
  refine ⟨?_, ?_, ?_⟩
  · intro hns
    constructor
    · simp [add_member, hns]
    · simp [remove_member, hns]
  · intro hs
    constructor
    · simp [add_member, hs]
    · simp [remove_member, hs]
  · intro p
    constructor
    · intro hv
      have hc : (proposalsGet st.proposals p).contains s = true :=
        List.elem_iff.mpr hv
      simp only [evaluate_proposal, hc, if_true]
    · intro hnv hlen
      have hc : (proposalsGet st.proposals p).contains s = false := by
        simp [List.elem_iff, hnv]
      constructor
      · intro hq st2 hex
        refine ⟨{ st2 with proposals := proposalsRemove (proposalsInsert st2.proposals p (proposalsGet st.proposals p ++ [s])) p }, ?_, rfl, rfl, ?_⟩
        · simp only [evaluate_proposal, hc, Bool.false_eq_true, if_false,
            if_pos hlen]
          rw [if_pos (by simpa using hq)]
          rw [hex]
        · simp only [proposalsHasKey_remove]
      · intro hq
        refine ⟨{ st with proposals := proposalsInsert st.proposals p (proposalsGet st.proposals p ++ [s]) }, ?_, rfl, rfl, ?_, ?_⟩
        · simp only [evaluate_proposal, hc, Bool.false_eq_true, if_false,
            if_pos hlen]
          rw [if_neg (by simp; omega)]
        · simp only [proposalsGet_insert]
        · simp only [proposalsHasKey_insert]

/-- Claim C2, witness: with 2 active members one vote admits (quorum
`floor(4/3) = 1`); with 3 active members the first vote only records
(quorum 2) and the second vote admits; with a single active member one
vote admits (quorum 0). -/
theorem quorum_vote_semantics_wit :
    (∃ st', add_member ⟨[1, 2], [], []⟩ (.signed 1) 4 = .ok st'
      ∧ st'.pendingCouncilMembers = [4]
      ∧ proposalsHasKey st'.proposals (.addNewMember 4) = false)
    ∧ (∃ st', add_member ⟨[1, 2, 3], [], []⟩ (.signed 1) 4 = .ok st'
      ∧ st'.pendingCouncilMembers = []
      ∧ proposalsGet st'.proposals (.addNewMember 4) = [1]
      ∧ proposalsHasKey st'.proposals (.addNewMember 4) = true)
    ∧ (∃ st', add_member ⟨[1, 2, 3], [], [(.addNewMember 4, [1])]⟩
          (.signed 2) 4 = .ok st'
      ∧ st'.pendingCouncilMembers = [4]
      ∧ proposalsHasKey st'.proposals (.addNewMember 4) = false)
    ∧ (∃ st', add_member ⟨[1], [], []⟩ (.signed 1) 4 = .ok st'
      ∧ st'.pendingCouncilMembers = [4]) := by
  refine ⟨?_, ?_, ?_, ?_⟩
  · have hop := ((quorum_vote_semantics ⟨[1, 2], [], []⟩ 1 4).2.1 (by decide)).1
    obtain ⟨st', hev, _, hpend, hkey⟩ :=
      (((quorum_vote_semantics ⟨[1, 2], [], []⟩ 1 4).2.2
        (.addNewMember 4)).2 (by decide) (by decide)).1 (by decide)
        ⟨[1, 2], [4], []⟩ rfl
    exact ⟨st', by rw [hop, hev], by rw [hpend], hkey⟩
  · have hop := ((quorum_vote_semantics ⟨[1, 2, 3], [], []⟩ 1 4).2.1
      (by decide)).1
    obtain ⟨st', hev, _, hpend, hget, hkey⟩ :=
      (((quorum_vote_semantics ⟨[1, 2, 3], [], []⟩ 1 4).2.2
        (.addNewMember 4)).2 (by decide) (by decide)).2 (by decide)
    refine ⟨st', by rw [hop, hev], by rw [hpend], by rw [hget]; rfl, hkey⟩
  · have hop := ((quorum_vote_semantics ⟨[1, 2, 3], [], [(.addNewMember 4, [1])]⟩
      2 4).2.1 (by decide)).1
    obtain ⟨st', hev, _, hpend, hkey⟩ :=
      (((quorum_vote_semantics ⟨[1, 2, 3], [], [(.addNewMember 4, [1])]⟩
        2 4).2.2 (.addNewMember 4)).2 (by decide) (by decide)).1 (by decide)
        ⟨[1, 2, 3], [4], [(.addNewMember 4, [1])]⟩ rfl
    exact ⟨st', by rw [hop, hev], by rw [hpend], hkey⟩
  · have hop := ((quorum_vote_semantics ⟨[1], [], []⟩ 1 4).2.1 (by decide)).1
    obtain ⟨st', hev, _, hpend, _⟩ :=
      (((quorum_vote_semantics ⟨[1], [], []⟩ 1 4).2.2
        (.addNewMember 4)).2 (by decide) (by decide)).1 (by decide)
        ⟨[1], [4], []⟩ rfl
    exact ⟨st', by rw [hop, hev], by rw [hpend]⟩

/-- Claim C2, as stated: whenever a vote brings the count to quorum the
proposal's effect is applied and the proposal deleted — in particular,
with 2 active members a single vote passes ANY proposal, so the call at
least succeeds. -/
def quorumClaimAsStated : Prop :=
  ∀ (st : CouncilState) (s target : Nat),
    is_council_member st s = true →
    s ∉ proposalsGet st.proposals (.removeExistingMember target) →
    (proposalsGet st.proposals (.removeExistingMember target)).length + 1
      ≥ st.activeCouncilMembers.length * 2 / 3 →
    ∃ st', remove_member st (.signed s) target = .ok st'

/-- Claim C2, counterexample: 2 active members {1, 2}, a single vote by
member 1 on `Expel(5)` where 5 is not a member: quorum (1) is reached but
applying the effect fails, so the call errors with `NotActiveMember`
instead of passing — the vote is rolled back with the failed call. -/
theorem quorum_vote_apply_cex : ¬ quorumClaimAsStated := by
  intro hclaim
  obtain ⟨st', h⟩ := hclaim ⟨[1, 2], [], []⟩ 1 5 (by decide) (by decide)
    (by decide)
  rw [show remove_member ⟨[1, 2], [], []⟩ (.signed 1) 5
      = .error .NotActiveMember from rfl] at h
  exact Except.noConfusion h

/-! ## Claim C8 -/

/-- Claim C8 (amended): when an `Admit(candidate)` vote reaches quorum
but the pending member set is at capacity (10), the call fails with
`StorageOverflow`.  The vote push sits inside the same failed
`Proposals::try_mutate` (and the transactional dispatch), so contrary to
the claim the triggering vote is NOT recorded, the proposal is NOT
deleted, and the candidate is not admitted — the pre-state persists
unchanged (the model returns no post state on error). -/
theorem admit_capacity_vote_fails (st : CouncilState) (s cand : Nat)
    (hmem : is_council_member st s = true)
    (hnv : s ∉ proposalsGet st.proposals (.addNewMember cand))
    (hlen : (proposalsGet st.proposals (.addNewMember cand)).length < 100)
    (hq : (proposalsGet st.proposals (.addNewMember cand)).length + 1
        ≥ st.activeCouncilMembers.length * 2 / 3)
    (hcap : 10 ≤ st.pendingCouncilMembers.length) :
    add_member st (.signed s) cand = .error .StorageOverflow := by
  have hc : (proposalsGet st.proposals (.addNewMember cand)).contains s
      = false := by
    simp [List.elem_iff, hnv]
  simp only [add_member, hmem, if_true, evaluate_proposal, hc,
    Bool.false_eq_true, if_false, if_pos hlen]
  rw [if_pos (by simpa using hq)]
  simp only [execute_proposal, execute_add_member]
  rw [if_neg (by omega)]

/-- Claim C8, witness: council {1, 2} (quorum 1), pending set already at
its 10-member capacity; member 1's `Admit(99)` vote reaches quorum but
the call fails with `StorageOverflow`. -/
theorem admit_capacity_vote_fails_wit :
    add_member ⟨[1, 2], [11, 12, 13, 14, 15, 16, 17, 18, 19, 20], []⟩
      (.signed 1) 99 = .error .StorageOverflow :=
  admit_capacity_vote_fails
    ⟨[1, 2], [11, 12, 13, 14, 15, 16, 17, 18, 19, 20], []⟩ 1 99
    (by decide) (by decide) (by decide) (by decide) (by decide)

/-- Claim C8, as stated: when the quorum-reaching `Admit` vote hits the
pending set's capacity, the vote is still consumed and the proposal
deleted while the candidate is not admitted — i.e. the call yields a
post state with the proposal gone and the pending set unchanged. -/
def admitCapacityClaimAsStated : Prop :=
  ∀ (st : CouncilState) (s cand : Nat),
    is_council_member st s = true →
    s ∉ proposalsGet st.proposals (.addNewMember cand) →
    (proposalsGet st.proposals (.addNewMember cand)).length + 1
      ≥ st.activeCouncilMembers.length * 2 / 3 →
    10 ≤ st.pendingCouncilMembers.length →
    ∃ st', add_member st (.signed s) cand = .ok st'
      ∧ proposalsHasKey st'.proposals (.addNewMember cand) = false
      ∧ st'.pendingCouncilMembers = st.pendingCouncilMembers

/-- Claim C8, counterexample: council {1, 2} with a full pending set; the
quorum-reaching `Admit(99)` vote makes the whole call fail with
`StorageOverflow`, so there is no post state at all: the vote is rolled
back, not consumed, and the proposal is not deleted. -/
theorem admit_capacity_vote_cex : ¬ admitCapacityClaimAsStated := by
  intro hclaim
  obtain ⟨st', h, _, _⟩ := hclaim
    ⟨[1, 2], [11, 12, 13, 14, 15, 16, 17, 18, 19, 20], []⟩ 1 99
    (by decide) (by decide) (by decide) (by decide)
  rw [show add_member ⟨[1, 2], [11, 12, 13, 14, 15, 16, 17, 18, 19, 20], []⟩
      (.signed 1) 99 = .error .StorageOverflow from rfl] at h
  exact Except.noConfusion h

/-! ## Claim C9 -/

theorem execute_no_already (st : CouncilState) (p : Proposal) :
    execute_proposal st p ≠ .error .AlreadyMember := by
  cases p with
  | addNewMember m =>
    simp only [execute_proposal, execute_add_member]
    split <;> simp
  | removeExistingMember m =>
    simp only [execute_proposal, execute_remove_member]
    split <;> simp

theorem evaluate_no_already (st : CouncilState) (p : Proposal) (s : Nat) :
    evaluate_proposal st p s ≠ .error .AlreadyMember := by
  intro h
  simp only [evaluate_proposal] at h
  split at h
  · exact CouncilErr.noConfusion (Except.error.inj h)
  · split at h
    · split at h
      · split at h
        · rename_i e hex
          have := execute_no_already st p
          rw [hex] at this
          rw [← h] at this
          exact this rfl
        · exact Except.noConfusion h
      · exact Except.noConfusion h
    · exact CouncilErr.noConfusion (Except.error.inj h)

theorem findIdx_of_mem (l : List Nat) (a : Nat) (h : a ∈ l) :
    ∃ i, l.findIdx? (fun x => x == a) = some i := by
  induction l with
  | nil => cases h
  | cons b tl ih =>
    by_cases hb : b = a
    · exact ⟨0, by simp [List.findIdx?, hb]⟩
    · have hmem : a ∈ tl := by
        cases h with
        | head => exact absurd rfl hb
        | tail _ htl => exact htl
      obtain ⟨i, hi⟩ := ih hmem
      exact ⟨i + 1, by simp [List.findIdx?, hb, hi]⟩

/-- Claim C9 (confirmed): no council operation checks whether an admitted
account is already a member.  An `Admit(a)` proposal is voted and applied
exactly like any other even when `a` is already active or pending — the
quorum-reaching vote appends `a` to the pending list again regardless of
membership; a subsequent `claim_membership` by `a` moves it to the active
list, increasing the number of copies of `a` there by one (a second copy
when `a` was already active); and `add_member`, `remove_member` and
`claim_membership` never return the declared-but-unused `AlreadyMember`
error. -/
theorem no_already_member_check (st : CouncilState) (s a : Nat) :
    (is_council_member st s = true →
      s ∉ proposalsGet st.proposals (.addNewMember a) →
      (proposalsGet st.proposals (.addNewMember a)).length < 100 →
      (proposalsGet st.proposals (.addNewMember a)).length + 1
        ≥ st.activeCouncilMembers.length * 2 / 3 →
      st.pendingCouncilMembers.length < 10 →
      ∃ st', add_member st (.signed s) a = .ok st'
        ∧ st'.activeCouncilMembers = st.activeCouncilMembers
        ∧ st'.pendingCouncilMembers = st.pendingCouncilMembers ++ [a])
    ∧ (a ∈ st.pendingCouncilMembers →
      st.activeCouncilMembers.length < 10 →
      ∃ st', claim_membership st (.signed a) = .ok st'
        ∧ st'.activeCouncilMembers.count a
            = st.activeCouncilMembers.count a + 1)
    ∧ (∀ (origin : Origin) (x : Nat),
        add_member st origin x ≠ .error .AlreadyMember
      ∧ remove_member st origin x ≠ .error .AlreadyMember
      ∧ claim_membership st origin ≠ .error .AlreadyMember) := by
  refine ⟨?_, ?_, ?_⟩
  · intro hmem hnv hlen hq hcap
    have hc : (proposalsGet st.proposals (.addNewMember a)).contains s
        = false := by
      simp [List.elem_iff, hnv]
    refine ⟨{ st with pendingCouncilMembers := st.pendingCouncilMembers ++ [a], proposals := proposalsRemove (proposalsInsert st.proposals (.addNewMember a) (proposalsGet st.proposals (.addNewMember a) ++ [s])) (.addNewMember a) }, ?_, rfl, rfl⟩
    simp only [add_member, hmem, if_true, evaluate_proposal, hc,
      Bool.false_eq_true, if_false, if_pos hlen]
    rw [if_pos (by simpa using hq)]
    simp only [execute_proposal, execute_add_member]
    rw [if_pos hcap]
  · intro hpend hcap
    have hc : st.pendingCouncilMembers.contains a = true :=
      List.elem_iff.mpr hpend
    obtain ⟨i, hi⟩ := findIdx_of_mem st.pendingCouncilMembers a hpend
    refine ⟨{ st with pendingCouncilMembers := st.pendingCouncilMembers.eraseIdx i, activeCouncilMembers := st.activeCouncilMembers ++ [a] }, ?_, ?_⟩
    · simp only [claim_membership, do_claim_membership, hc, if_true, hi]
      rw [if_pos hcap]
    · simp [List.count_append]
  · intro origin x
    refine ⟨?_, ?_, ?_⟩
    · cases origin with
      | signed s2 =>
        simp only [add_member]
        split
        · exact evaluate_no_already st (.addNewMember x) s2
        · simp
      | root => simp [add_member]
      | unsignedOrigin => simp [add_member]
    · cases origin with
      | signed s2 =>
        simp only [remove_member]
        split
        · exact evaluate_no_already st (.removeExistingMember x) s2
        · simp
      | root => simp [remove_member]
      | unsignedOrigin => simp [remove_member]
    · cases origin with
      | signed s2 =>
        simp only [claim_membership, do_claim_membership]
        split
        · split
          · split <;> simp
          · simp
        · simp
      | root => simp [claim_membership]
      | unsignedOrigin => simp [claim_membership]

/-- Claim C9, witness: council {1, 2}; member 1 proposes `Admit(2)` for
the already-active member 2, the single vote passes, 2 lands in the
pending list, and 2's `claim_membership` leaves the active list holding
two copies of 2. -/
theorem no_already_member_check_wit :
    ∃ st1 st2, add_member ⟨[1, 2], [], []⟩ (.signed 1) 2 = .ok st1
      ∧ claim_membership st1 (.signed 2) = .ok st2
      ∧ st2.activeCouncilMembers.count 2 = 2 := by
  obtain ⟨st1, h1, hact, hpend⟩ :=
    (no_already_member_check ⟨[1, 2], [], []⟩ 1 2).1 (by decide) (by decide)
      (by decide) (by decide) (by decide)
  obtain ⟨st2, h2, hcount⟩ :=
    (no_already_member_check st1 0 2).2.1 (by rw [hpend]; simp)
      (by rw [hact]; decide)
  refine ⟨st1, st2, h1, h2, ?_⟩
  rw [hcount, hact]
  rfl

/-! ## Claim C7 -/

/-- Claim C7 (amended): registering any concrete asset descriptor via
`create_parachain_asset` and reverse-looking-up the created id via
`convert_asset_id_to_location` yields the descriptor's location again —
for every hash model `cm`, hence in particular for keccak-256.  The
amendment drops the claim's reserved-native-id clause:
`create_parachain_asset` has no native special case, so the
native-location descriptor is hashed like any other descriptor and is not
mapped to the reserved native currency id (see
`asset_roundtrip_native_cex`). -/
theorem asset_roundtrip (cm : Crypto) (cfg : Cfg) (ex : Executor)
    (st : XcmState) (origin : Origin) (loc : MultiLocation)
    (st' : XcmState) (assetId : Nat)
    (hwf : loc.wfb = true)
    (h : create_parachain_asset cm cfg ex st origin (.concrete loc)
          = .ok (st', assetId)) :
    convert_asset_id_to_location st' assetId = some loc := by
  have hdec : decodeParachainAsset
      (encodeParachainAsset ⟨loc, .fungibleType⟩) = some (⟨loc, .fungibleType⟩, []) := by
    have := decodeParachainAsset_encodeParachainAsset ⟨loc, .fungibleType⟩ [] hwf
    rwa [List.append_nil] at this
  simp only [create_parachain_asset, get_asset_info,
    generate_asset_id_for_parachain] at h
  split at h
  · by_cases hlen :
        (encodeParachainAsset ⟨loc, .fungibleType⟩).length ≤ 1000
    · rw [if_pos hlen] at h
      dsimp only at h
      split at h
      · rw [Except.ok.injEq, Prod.mk.injEq] at h
        obtain ⟨h1, h2⟩ := h
        subst h1
        subst h2
        simp only [convert_asset_id_to_location, upd_same, hdec]
      · exact Except.noConfusion h
    · rw [if_neg hlen] at h
      dsimp only at h
      exact Except.noConfusion h
  · exact Except.noConfusion h

/-- Claim C7, witness: registering the concrete root-location descriptor
under the identity hash model and reverse-looking-up the created id
returns the descriptor. -/
theorem asset_roundtrip_wit :
    ∃ st' assetId,
      create_parachain_asset cmId cfgW exW stEmpty .root
          (.concrete ⟨0, .here⟩) = .ok (st', assetId)
      ∧ convert_asset_id_to_location st' assetId = some ⟨0, .here⟩ := by
  refine ⟨_, _, rfl, ?_⟩
  exact asset_roundtrip cmId cfgW exW stEmpty .root ⟨0, .here⟩ _ _
    (by decide) rfl

/-- Claim C7, as stated: the registration round trip holds for every
descriptor, AND the native-location descriptor — the location
`{parents: 1, X1(Parachain(ParachainId))}` that `is_native_asset` singles
out — maps to the reserved native asset id (`NativeCurrencyId = 0`,
`src/xcm-simulator/src/parachain.rs:538`, never derived by hashing). -/
def assetRoundtripClaimAsStated : Prop :=
  ∀ (cm : Crypto) (cfg : Cfg) (ex : Executor) (st : XcmState)
    (origin : Origin) (loc : MultiLocation) (st' : XcmState) (assetId : Nat),
    loc.wfb = true →
    create_parachain_asset cm cfg ex st origin (.concrete loc)
      = .ok (st', assetId) →
    convert_asset_id_to_location st' assetId = some loc
    ∧ (loc = ⟨1, .x1 (.parachain cfg.parachainId)⟩ → assetId = 0)

/-- Claim C7, counterexample: registering the native-location descriptor
under a hash model whose digest is sixteen `0x01` bytes succeeds and
yields the hash-derived id `0x01010101010101010101010101010101 ≠ 0`:
`create_parachain_asset` treats the native location like any other
descriptor and never assigns the reserved native id. -/
theorem asset_roundtrip_native_cex : ¬ assetRoundtripClaimAsStated := by
  intro hclaim
  have h := (hclaim cmOnes cfgW exW stEmpty .root
    ⟨1, .x1 (.parachain 2040)⟩ _ _ (by decide) rfl).2 rfl
  exact absurd h (by decide)
